import Mathlib

/-!
Verification of the layout/pagination logic of `deck_printer.py`.

The program arranges card images into a 3×3 grid over multiple PDF pages.
We embed its pure computational content:

* `mm_to_points`        — millimeter-to-point conversion (`int((mm * 72) / 25.4)`);
* `read_png_files`      — directory scan: filter on the `.png` suffix, then sort;
* `scale_image_to_card` — crop / uniform scale / center-paste of one source image;
* margins, per-card placement, page chunking and guide lines of
  `create_pdf_with_fpdf` / `draw_grid`;
* the temp-file save/embed/remove loop of `create_pdf_with_fpdf`, with an
  oracle for whether each embed succeeds, tracking which temp files are on disk;
* the materialization of the resize generator by `list(...)` in `main`.

Filenames are `List Char` (lexicographic order on code points, as in Python).
Real-valued quantities (margins, scale factors, line coordinates) are `ℚ`:
the Python source computes them with `/` on floats, and every claim checked
here is about the exact real value of those expressions.
-/

namespace DeckPrinter

/-- Python `int(x)`: truncation toward zero. -/
def pyInt (x : ℚ) : ℤ := if 0 ≤ x then ⌊x⌋ else ⌈x⌉

/-- `mm_to_points(mm)`: `int((mm * 72) / 25.4)`. -/
def mm_to_points (mm : ℚ) : ℤ := pyInt ((mm * 72) / (25.4 : ℚ))

/-- The suffix `'.png'` tested by `f.endswith('.png')`. -/
def pngSuffix : List Char := ['.', 'p', 'n', 'g']

/-- `read_png_files(directory)`: `sorted(f for f in os.listdir(directory) if f.endswith('.png'))`.
The argument is the directory listing in whatever order the filesystem returns it;
Python's `sorted` is a stable comparison sort by `≤`, embedded as insertion sort
(same result: the `≤`-sorted stable permutation). -/
def read_png_files (listing : List (List Char)) : List (List Char) :=
  (listing.filter (fun f => pngSuffix.isSuffixOf f)).insertionSort (· ≤ ·)

/-- `x_margin = (page_size[0] - total_width) / 2` where `total_width = card_size[0] * grid_size[0]`. -/
def x_margin (page_w card_w : ℚ) (cols : ℕ) : ℚ := (page_w - card_w * cols) / 2

/-- `y_margin = (page_size[1] - total_height) / 2` where `total_height = card_size[1] * grid_size[1]`. -/
def y_margin (page_h card_h : ℚ) (rows : ℕ) : ℚ := (page_h - card_h * rows) / 2

/-- `row, col = divmod(idx, grid_size[0])`. -/
def card_row_col (idx cols : ℕ) : ℕ × ℕ := (idx / cols, idx % cols)

/-- `x_offset = col * card_size[0] + x_margin; y_offset = row * card_size[1] + y_margin`
(lines 145-147): the top-left corner where the card at in-page index `idx` is placed. -/
def card_offset (idx cols : ℕ) (card_w card_h xm ym : ℚ) : ℚ × ℚ :=
  let rc := card_row_col idx cols
  (rc.2 * card_w + xm, rc.1 * card_h + ym)

/-- The geometry computed by `scale_image_to_card`:
crop box size, scale factor, scaled size, paste offsets, and output canvas size. -/
structure ScaledCard where
  scale_factor : ℚ
  new_w : ℤ
  new_h : ℤ
  x_offset : ℤ
  y_offset : ℤ
  out_w : ℤ
  out_h : ℤ
deriving DecidableEq

/-- Line 44: `new_size = (int(original_width * scale_factor), int(original_height * scale_factor))`
on the cropped dimensions, with
`scale_factor = min(target_height / original_height, target_width / original_width)`
from line 41. -/
def new_size (img_w img_h card_w card_h x_crop y_crop : ℤ) : ℤ × ℤ :=
  let ow := img_w - 2 * x_crop
  let oh := img_h - 2 * y_crop
  let sf : ℚ := min ((card_h : ℚ) / (oh : ℚ)) ((card_w : ℚ) / (ow : ℚ))
  (pyInt ((ow : ℚ) * sf), pyInt ((oh : ℚ) * sf))

/-- `scale_image_to_card(img, card_size_pixels, x_crop, y_crop)`:
crop `x_crop`/`y_crop` pixels from each side (`img.crop((left, top, right, bottom))`),
take `scale_factor = min(target_height / original_height, target_width / original_width)`,
scale to `new_size = (int(w * scale_factor), int(h * scale_factor))`, and paste onto a
white `Image.new('RGB', card_size_pixels)` canvas at
`(max(0, (target_w - new_w) // 2), max(0, (target_h - new_h) // 2))`.
`none` models the exceptions Python raises: on a degenerate crop box
(`ZeroDivisionError` on a zero-size crop, or a negative-size crop rejected by PIL),
and in `img.resize(new_size, ...)`, which raises `ValueError` when either component
of `new_size` is not positive — which also covers any non-positive target footprint,
since that forces a non-positive scaled dimension. -/
def scale_image_to_card (img_w img_h card_w card_h x_crop y_crop : ℤ) : Option ScaledCard :=
  let ow := img_w - 2 * x_crop
  let oh := img_h - 2 * y_crop
  if ow ≤ 0 ∨ oh ≤ 0 then none
  else
    let sf : ℚ := min ((card_h : ℚ) / (oh : ℚ)) ((card_w : ℚ) / (ow : ℚ))
    let nw := pyInt ((ow : ℚ) * sf)
    let nh := pyInt ((oh : ℚ) * sf)
    if nw ≤ 0 ∨ nh ≤ 0 then none
    else
      some { scale_factor := sf, new_w := nw, new_h := nh
             x_offset := max 0 (Int.fdiv (card_w - nw) 2)
             y_offset := max 0 (Int.fdiv (card_h - nh) 2)
             out_w := card_w, out_h := card_h }

/-- A straight line segment drawn on the page, from `(x1, y1)` to `(x2, y2)`. -/
structure Line where
  x1 : ℚ
  y1 : ℚ
  x2 : ℚ
  y2 : ℚ
deriving DecidableEq

/-- The horizontal lines of `draw_grid`: for `row in range(num_rows + 1)`,
`pdf.line(x_bleed, y, page_size[0] - x_bleed, y)` with `y = row * cell_height + y_margin`
and `x_bleed = x_margin - bleed`. -/
def horizLines (num_rows : ℕ) (cell_height xm ym page_w bleed : ℚ) : List Line :=
  (List.range (num_rows + 1)).map (fun (row : ℕ) =>
    { x1 := xm - bleed, y1 := (row : ℚ) * cell_height + ym
      x2 := page_w - (xm - bleed), y2 := (row : ℚ) * cell_height + ym })

/-- The vertical lines of `draw_grid`: for `col in range(num_cols + 1)`,
`pdf.line(x, y_bleed, x, page_size[1] - y_bleed)` with `x = col * cell_width + x_margin`
and `y_bleed = y_margin - bleed`. -/
def vertLines (num_cols : ℕ) (cell_width xm ym page_h bleed : ℚ) : List Line :=
  (List.range (num_cols + 1)).map (fun (col : ℕ) =>
    { x1 := (col : ℚ) * cell_width + xm, y1 := ym - bleed
      x2 := (col : ℚ) * cell_width + xm, y2 := page_h - (ym - bleed) })

/-- `draw_grid(pdf, num_rows, num_cols, cell_width, cell_height, x_margin, y_margin, page_size, bleed)`:
all lines it draws, horizontal loop first, then vertical loop. -/
def draw_grid (num_rows num_cols : ℕ) (cell_width cell_height xm ym page_w page_h bleed : ℚ) :
    List Line :=
  horizLines num_rows cell_height xm ym page_w bleed ++
    vertLines num_cols cell_width xm ym page_h bleed

/-- C2: within a page, the card at zero-based index `idx` goes to grid row `idx / cols`
and grid column `idx % cols` (`divmod`), with top-left offset
`(col * card_w + x_margin, row * card_h + y_margin)`; for a 3-column grid,
index 4 lands at row 1, column 1. -/
theorem card_placement (idx cols : ℕ) (card_w card_h xm ym : ℚ) :
    card_row_col idx cols = (idx / cols, idx % cols) ∧
    card_offset idx cols card_w card_h xm ym =
      (((idx % cols : ℕ) : ℚ) * card_w + xm, ((idx / cols : ℕ) : ℚ) * card_h + ym) ∧
    card_row_col 4 3 = (1, 1) ∧
    card_offset 4 3 card_w card_h xm ym = (1 * card_w + xm, 1 * card_h + ym) := by
  refine ⟨rfl, rfl, by decide, ?_⟩
  simp only [card_offset, card_row_col, Prod.mk.injEq]
  norm_num

/-- C6 counterexample: `mm_to_points` does NOT compute `round(mm * 72 / 25.4)`.
At `mm = 63` the code's `int(...)` truncates `178.58...` to `178`, while
rounding would give `179`. -/
theorem mm_to_points_not_round : mm_to_points 63 ≠ round ((63 : ℚ) * 72 / (25.4 : ℚ)) := by
  have h1 : mm_to_points 63 = 178 := by
    norm_num [mm_to_points, pyInt]
  have h2 : round ((63 : ℚ) * 72 / (25.4 : ℚ)) = 179 := by
    norm_num [round_eq]
  omega

/-- C6 (amended): for every non-negative `mm`, `mm_to_points mm = ⌊mm * 72 / 25.4⌋`
(Python `int` truncation, which is the floor on non-negative input); in particular
a 63mm × 88mm card converts to 178 × 249 points, consistent with the margins
`x_margin = (595 - 3 * 178) / 2 = 30.5` and `y_margin = (842 - 3 * 249) / 2 = 47.5`. -/
theorem mm_to_points_trunc (mm : ℚ) (h : 0 ≤ mm) :
    mm_to_points mm = ⌊mm * 72 / (25.4 : ℚ)⌋ ∧
    mm_to_points 63 = 178 ∧ mm_to_points 88 = 249 ∧
    x_margin 595 178 3 = 61 / 2 ∧ y_margin 842 249 3 = 95 / 2 := by
  refine ⟨?_, ?_, ?_, ?_, ?_⟩
  · have hnn : 0 ≤ mm * 72 / (25.4 : ℚ) :=
      div_nonneg (mul_nonneg h (by norm_num)) (by norm_num)
    simp [mm_to_points, pyInt, hnn]
  · norm_num [mm_to_points, pyInt]
  · norm_num [mm_to_points, pyInt]
  · norm_num [x_margin]
  · norm_num [y_margin]

/-- Witness for `mm_to_points_trunc` at `mm = 63`. -/
theorem mm_to_points_trunc_witness :
    mm_to_points 63 = ⌊(63 : ℚ) * 72 / (25.4 : ℚ)⌋ ∧
    mm_to_points 63 = 178 ∧ mm_to_points 88 = 249 ∧
    x_margin 595 178 3 = 61 / 2 ∧ y_margin 842 249 3 = 95 / 2 :=
  mm_to_points_trunc 63 (by norm_num)

/-- C7: the scanner returns exactly the filenames ending in `.png`, in ascending
lexicographic order (a sorted permutation of the filtered listing, independent of the
enumeration order); for a directory containing `{b.png, a.png, c.png}` it returns
`[a.png, b.png, c.png]`. -/
theorem scanner_sorted_filter (listing : List (List Char)) :
    (read_png_files listing).Sorted (· ≤ ·) ∧
    (read_png_files listing).Perm (listing.filter (fun f => pngSuffix.isSuffixOf f)) ∧
    (∀ f, f ∈ read_png_files listing → pngSuffix.isSuffixOf f = true) ∧
    read_png_files [['b','.','p','n','g'], ['a','.','p','n','g'], ['c','.','p','n','g']] =
      [['a','.','p','n','g'], ['b','.','p','n','g'], ['c','.','p','n','g']] := by
  refine ⟨List.sorted_insertionSort _ _, List.perm_insertionSort _ _, ?_, by decide⟩
  intro f hf
  simp only [read_png_files] at hf
  have hmem := (List.perm_insertionSort (· ≤ ·)
    (listing.filter (fun f => pngSuffix.isSuffixOf f))).mem_iff.mp hf
  exact (List.mem_filter.mp hmem).2

/-- Witness for `scanner_sorted_filter` on the listing `[b.png, a.png, c.png]`. -/
theorem scanner_sorted_filter_witness :
    pngSuffix.isSuffixOf ['a','.','p','n','g'] = true ∧
    read_png_files [['b','.','p','n','g'], ['a','.','p','n','g'], ['c','.','p','n','g']] =
      [['a','.','p','n','g'], ['b','.','p','n','g'], ['c','.','p','n','g']] :=
  ⟨(scanner_sorted_filter [['b','.','p','n','g'], ['a','.','p','n','g'], ['c','.','p','n','g']]).2.2.1
      ['a','.','p','n','g'] (by decide),
   (scanner_sorted_filter [['b','.','p','n','g'], ['a','.','p','n','g'], ['c','.','p','n','g']]).2.2.2⟩

/-- C4: `draw_grid` draws exactly `rows + 1` horizontal and `cols + 1` vertical lines;
horizontal line `r` spans x from `x_margin - bleed` to `page_width - (x_margin - bleed)`
at `y = r * card_height + y_margin`, and symmetrically for vertical lines; for page
595 × 842, grid 3 × 3, card 178 × 249, bleed 10, the first horizontal line spans x from
20.5 to 574.5 at y = 47.5. -/
theorem grid_lines (rows cols : ℕ) (cw ch xm ym pw ph bleed : ℚ) :
    (horizLines rows ch xm ym pw bleed).length = rows + 1 ∧
    (vertLines cols cw xm ym ph bleed).length = cols + 1 ∧
    draw_grid rows cols cw ch xm ym pw ph bleed =
      horizLines rows ch xm ym pw bleed ++ vertLines cols cw xm ym ph bleed ∧
    (∀ r, r ≤ rows → (horizLines rows ch xm ym pw bleed)[r]? =
      some ⟨xm - bleed, r * ch + ym, pw - (xm - bleed), r * ch + ym⟩) ∧
    (∀ c, c ≤ cols → (vertLines cols cw xm ym ph bleed)[c]? =
      some ⟨c * cw + xm, ym - bleed, c * cw + xm, ph - (ym - bleed)⟩) ∧
    (horizLines 3 249 (x_margin 595 178 3) (y_margin 842 249 3) 595 10)[0]? =
      some ⟨41/2, 95/2, 1149/2, 95/2⟩ := by
  refine ⟨?_, ?_, rfl, ?_, ?_, ?_⟩
  · rw [horizLines, List.length_map, List.length_range]
  · rw [vertLines, List.length_map, List.length_range]
  · intro r hr
    have hlt : r < rows + 1 := by omega
    rw [horizLines, List.getElem?_map, List.getElem?_range hlt, Option.map_some']
  · intro c hc
    have hlt : c < cols + 1 := by omega
    rw [vertLines, List.getElem?_map, List.getElem?_range hlt, Option.map_some']
  · have h0 : (0 : ℕ) < 3 + 1 := by omega
    rw [horizLines, List.getElem?_map, List.getElem?_range h0, Option.map_some']
    norm_num [x_margin, y_margin, Line.mk.injEq]

/-- Witness for `grid_lines` at the spec's concrete geometry. -/
theorem grid_lines_witness :
    (horizLines 3 249 (x_margin 595 178 3) (y_margin 842 249 3) 595 10).length = 3 + 1 ∧
    (horizLines 3 249 (x_margin 595 178 3) (y_margin 842 249 3) 595 10)[0]? =
      some ⟨41/2, 95/2, 1149/2, 95/2⟩ :=
  ⟨(grid_lines 3 3 178 249 (x_margin 595 178 3) (y_margin 842 249 3) 595 842 10).1,
   (grid_lines 3 3 178 249 (x_margin 595 178 3) (y_margin 842 249 3) 595 842 10).2.2.2.2.2⟩

/-- Shared analysis of `scale_image_to_card` on an input where the program does not
raise — the crop is non-degenerate and both components of `new_size` are positive,
so `img.resize` succeeds: the scale factor, scaled size, offsets and canvas size
produced, with the bounds that make the paste fit. -/
theorem scale_image_core (img_w img_h card_w card_h x_crop y_crop : ℤ)
    (hw : 2 * x_crop < img_w) (hh : 2 * y_crop < img_h)
    (hnw : 0 < (new_size img_w img_h card_w card_h x_crop y_crop).1)
    (hnh : 0 < (new_size img_w img_h card_w card_h x_crop y_crop).2) :
    ∃ r, scale_image_to_card img_w img_h card_w card_h x_crop y_crop = some r ∧
      r.scale_factor = min ((card_h : ℚ) / ((img_h - 2 * y_crop : ℤ) : ℚ))
        ((card_w : ℚ) / ((img_w - 2 * x_crop : ℤ) : ℚ)) ∧
      r.new_w = ⌊((img_w - 2 * x_crop : ℤ) : ℚ) * r.scale_factor⌋ ∧
      r.new_h = ⌊((img_h - 2 * y_crop : ℤ) : ℚ) * r.scale_factor⌋ ∧
      0 < r.new_w ∧ 0 < r.new_h ∧ r.new_w ≤ card_w ∧ r.new_h ≤ card_h ∧
      r.x_offset = (card_w - r.new_w) / 2 ∧ r.y_offset = (card_h - r.new_h) / 2 ∧
      0 ≤ r.x_offset ∧ 0 ≤ r.y_offset ∧
      r.x_offset + r.new_w ≤ card_w ∧ r.y_offset + r.new_h ≤ card_h ∧
      r.out_w = card_w ∧ r.out_h = card_h := by
  have hcond : ¬(img_w - 2 * x_crop ≤ 0 ∨ img_h - 2 * y_crop ≤ 0) := by omega
  have howQ : (0 : ℚ) < ((img_w - 2 * x_crop : ℤ) : ℚ) := by
    exact_mod_cast (by omega : (0 : ℤ) < img_w - 2 * x_crop)
  have hohQ : (0 : ℚ) < ((img_h - 2 * y_crop : ℤ) : ℚ) := by
    exact_mod_cast (by omega : (0 : ℤ) < img_h - 2 * y_crop)
  simp only [new_size] at hnw hnh
  simp only [scale_image_to_card]
  rw [if_neg hcond]
  set sf : ℚ := min ((card_h : ℚ) / ((img_h - 2 * y_crop : ℤ) : ℚ))
    ((card_w : ℚ) / ((img_w - 2 * x_crop : ℤ) : ℚ)) with hsf_def
  have hpw_nonneg : 0 ≤ ((img_w - 2 * x_crop : ℤ) : ℚ) * sf := by
    by_contra hneg
    push_neg at hneg
    have hle : pyInt (((img_w - 2 * x_crop : ℤ) : ℚ) * sf) ≤ 0 := by
      rw [pyInt, if_neg (not_le.mpr hneg)]
      exact Int.ceil_le.mpr (by exact_mod_cast hneg.le)
    omega
  have hph_nonneg : 0 ≤ ((img_h - 2 * y_crop : ℤ) : ℚ) * sf := by
    by_contra hneg
    push_neg at hneg
    have hle : pyInt (((img_h - 2 * y_crop : ℤ) : ℚ) * sf) ≤ 0 := by
      rw [pyInt, if_neg (not_le.mpr hneg)]
      exact Int.ceil_le.mpr (by exact_mod_cast hneg.le)
    omega
  have hcond2 : ¬(pyInt (((img_w - 2 * x_crop : ℤ) : ℚ) * sf) ≤ 0 ∨
      pyInt (((img_h - 2 * y_crop : ℤ) : ℚ) * sf) ≤ 0) := by omega
  rw [if_neg hcond2]
  have hpw_le : ((img_w - 2 * x_crop : ℤ) : ℚ) * sf ≤ (card_w : ℚ) := by
    calc ((img_w - 2 * x_crop : ℤ) : ℚ) * sf
        ≤ ((img_w - 2 * x_crop : ℤ) : ℚ) *
            ((card_w : ℚ) / ((img_w - 2 * x_crop : ℤ) : ℚ)) :=
          mul_le_mul_of_nonneg_left (min_le_right _ _) howQ.le
      _ = (card_w : ℚ) := by rw [mul_comm]; exact div_mul_cancel₀ _ howQ.ne'
  have hph_le : ((img_h - 2 * y_crop : ℤ) : ℚ) * sf ≤ (card_h : ℚ) := by
    calc ((img_h - 2 * y_crop : ℤ) : ℚ) * sf
        ≤ ((img_h - 2 * y_crop : ℤ) : ℚ) *
            ((card_h : ℚ) / ((img_h - 2 * y_crop : ℤ) : ℚ)) :=
          mul_le_mul_of_nonneg_left (min_le_left _ _) hohQ.le
      _ = (card_h : ℚ) := by rw [mul_comm]; exact div_mul_cancel₀ _ hohQ.ne'
  have hpyw : pyInt (((img_w - 2 * x_crop : ℤ) : ℚ) * sf) =
      ⌊((img_w - 2 * x_crop : ℤ) : ℚ) * sf⌋ := by
    rw [pyInt, if_pos hpw_nonneg]
  have hpyh : pyInt (((img_h - 2 * y_crop : ℤ) : ℚ) * sf) =
      ⌊((img_h - 2 * y_crop : ℤ) : ℚ) * sf⌋ := by
    rw [pyInt, if_pos hph_nonneg]
  have hnwle : pyInt (((img_w - 2 * x_crop : ℤ) : ℚ) * sf) ≤ card_w := by
    rw [hpyw]
    have h := Int.floor_le_floor hpw_le
    rwa [Int.floor_intCast] at h
  have hnhle : pyInt (((img_h - 2 * y_crop : ℤ) : ℚ) * sf) ≤ card_h := by
    rw [hpyh]
    have h := Int.floor_le_floor hph_le
    rwa [Int.floor_intCast] at h
  have hxoff : max 0 ((card_w - pyInt (((img_w - 2 * x_crop : ℤ) : ℚ) * sf)).fdiv 2) =
      (card_w - pyInt (((img_w - 2 * x_crop : ℤ) : ℚ) * sf)) / 2 := by
    rw [Int.fdiv_eq_ediv _ (by norm_num)]
    omega
  have hyoff : max 0 ((card_h - pyInt (((img_h - 2 * y_crop : ℤ) : ℚ) * sf)).fdiv 2) =
      (card_h - pyInt (((img_h - 2 * y_crop : ℤ) : ℚ) * sf)) / 2 := by
    rw [Int.fdiv_eq_ediv _ (by norm_num)]
    omega
  have hxsum : max 0 ((card_w - pyInt (((img_w - 2 * x_crop : ℤ) : ℚ) * sf)).fdiv 2) +
      pyInt (((img_w - 2 * x_crop : ℤ) : ℚ) * sf) ≤ card_w := by
    rw [Int.fdiv_eq_ediv _ (by norm_num)]
    omega
  have hysum : max 0 ((card_h - pyInt (((img_h - 2 * y_crop : ℤ) : ℚ) * sf)).fdiv 2) +
      pyInt (((img_h - 2 * y_crop : ℤ) : ℚ) * sf) ≤ card_h := by
    rw [Int.fdiv_eq_ediv _ (by norm_num)]
    omega
  exact ⟨_, rfl, rfl, hpyw, hpyh, hnw, hnh, hnwle, hnhle, hxoff, hyoff,
    le_max_left 0 _, le_max_left 0 _, hxsum, hysum, rfl, rfl⟩

/-- C3 counterexample: a 71 × 320 source with the default crop 35 has a
non-degenerate crop box (1 × 250, both dimensions exceed twice the margin), yet
against the 178 × 249 footprint the scaled width is `int(1 * 249/250) = 0`, so
`img.resize` raises `ValueError` and the program produces no output image at all —
the dimension invariant fails on an in-scope input. -/
theorem normalizer_output_dims_cex :
    (2 * 35 < (71 : ℤ)) ∧ (2 * 35 < (320 : ℤ)) ∧
    scale_image_to_card 71 320 178 249 35 35 = none ∧
    ¬ ∃ r, scale_image_to_card 71 320 178 249 35 35 = some r ∧
      r.out_w = 178 ∧ r.out_h = 249 := by
  have hnone : scale_image_to_card 71 320 178 249 35 35 = none := by
    norm_num [scale_image_to_card, pyInt, min_def]
  refine ⟨by norm_num, by norm_num, hnone, ?_⟩
  rintro ⟨r, hr, -, -⟩
  rw [hnone] at hr
  cases hr

/-- C3 (amended): on any source image whose dimensions exceed twice the crop margin
AND whose computed `new_size` is positive in both axes — i.e. whenever the resize
call does not raise — the normalizer succeeds and its output canvas dimensions
exactly equal the configured card footprint, regardless of the source's size or
aspect ratio. -/
theorem normalizer_output_dims (img_w img_h card_w card_h x_crop y_crop : ℤ)
    (hw : 2 * x_crop < img_w) (hh : 2 * y_crop < img_h)
    (hnw : 0 < (new_size img_w img_h card_w card_h x_crop y_crop).1)
    (hnh : 0 < (new_size img_w img_h card_w card_h x_crop y_crop).2) :
    ∃ r, scale_image_to_card img_w img_h card_w card_h x_crop y_crop = some r ∧
      r.out_w = card_w ∧ r.out_h = card_h := by
  obtain ⟨r, hr, _, _, _, _, _, _, _, _, _, _, _, _, _, hout_w, hout_h⟩ :=
    scale_image_core img_w img_h card_w card_h x_crop y_crop hw hh hnw hnh
  exact ⟨r, hr, hout_w, hout_h⟩

/-- Witness for `normalizer_output_dims`: a 100 × 80 source (smaller than the
footprint after cropping 35 from each edge, scaled size 744 × 248) yields a
744 × 1039 canvas. -/
theorem normalizer_output_dims_witness :
    ∃ r, scale_image_to_card 100 80 744 1039 35 35 = some r ∧
      r.out_w = 744 ∧ r.out_h = 1039 :=
  normalizer_output_dims 100 80 744 1039 35 35 (by norm_num) (by norm_num)
    (by norm_num [new_size, pyInt, min_def]) (by norm_num [new_size, pyInt, min_def])

/-- C5 counterexample: a 320 × 71 source with the default crop 35 has a positive
cropped size (250 × 1), yet against the 178 × 249 footprint the scale factor is
`min(249/1, 178/250) = 178/250` and the scaled height is `int(1 * 178/250) = 0`,
so `img.resize` raises and no scaling or paste occurs — the claim's scale-and-center
behavior fails on an in-scope input. -/
theorem normalizer_scale_center_cex :
    (2 * 35 < (320 : ℤ)) ∧ (2 * 35 < (71 : ℤ)) ∧
    scale_image_to_card 320 71 178 249 35 35 = none ∧
    ¬ ∃ r, scale_image_to_card 320 71 178 249 35 35 = some r := by
  have hnone : scale_image_to_card 320 71 178 249 35 35 = none := by
    norm_num [scale_image_to_card, pyInt, min_def]
  refine ⟨by norm_num, by norm_num, hnone, ?_⟩
  rintro ⟨r, hr⟩
  rw [hnone] at hr
  cases hr

/-- C5 (amended): on a non-degenerate crop whose computed `new_size` is positive in
both axes — i.e. whenever the resize call does not raise — the normalizer scales by
the uniform factor `min(target_h / cropped_h, target_w / cropped_w)`, the scaled
size is the floor of the cropped size times that factor and fits inside the
footprint, and the image is pasted on a canvas of exactly the footprint size,
centered at offsets equal to half the leftover width/height, floored. -/
theorem normalizer_scale_center (img_w img_h card_w card_h x_crop y_crop : ℤ)
    (hw : 2 * x_crop < img_w) (hh : 2 * y_crop < img_h)
    (hnw : 0 < (new_size img_w img_h card_w card_h x_crop y_crop).1)
    (hnh : 0 < (new_size img_w img_h card_w card_h x_crop y_crop).2) :
    ∃ r, scale_image_to_card img_w img_h card_w card_h x_crop y_crop = some r ∧
      r.scale_factor = min ((card_h : ℚ) / ((img_h - 2 * y_crop : ℤ) : ℚ))
        ((card_w : ℚ) / ((img_w - 2 * x_crop : ℤ) : ℚ)) ∧
      r.new_w = ⌊((img_w - 2 * x_crop : ℤ) : ℚ) * r.scale_factor⌋ ∧
      r.new_h = ⌊((img_h - 2 * y_crop : ℤ) : ℚ) * r.scale_factor⌋ ∧
      r.new_w ≤ card_w ∧ r.new_h ≤ card_h ∧
      r.x_offset = (card_w - r.new_w) / 2 ∧ r.y_offset = (card_h - r.new_h) / 2 ∧
      r.out_w = card_w ∧ r.out_h = card_h := by
  obtain ⟨r, hr, hsf, hfw, hfh, _, _, hnwle, hnhle, hxo, hyo, _, _, _, _, hout_w, hout_h⟩ :=
    scale_image_core img_w img_h card_w card_h x_crop y_crop hw hh hnw hnh
  exact ⟨r, hr, hsf, hfw, hfh, hnwle, hnhle, hxo, hyo, hout_w, hout_h⟩

/-- Witness for `normalizer_scale_center`: a 1000 × 400 source cropped by 35
(scaled size 178 × 63), targeted at a 178 × 249 footprint. -/
theorem normalizer_scale_center_witness :
    ∃ r, scale_image_to_card 1000 400 178 249 35 35 = some r ∧
      r.scale_factor = min ((249 : ℚ) / ((400 - 2 * 35 : ℤ) : ℚ))
        ((178 : ℚ) / ((1000 - 2 * 35 : ℤ) : ℚ)) ∧
      r.new_w = ⌊((1000 - 2 * 35 : ℤ) : ℚ) * r.scale_factor⌋ ∧
      r.new_h = ⌊((400 - 2 * 35 : ℤ) : ℚ) * r.scale_factor⌋ ∧
      r.new_w ≤ 178 ∧ r.new_h ≤ 249 ∧
      r.x_offset = (178 - r.new_w) / 2 ∧ r.y_offset = (249 - r.new_h) / 2 ∧
      r.out_w = 178 ∧ r.out_h = 249 :=
  normalizer_scale_center 1000 400 178 249 35 35 (by norm_num) (by norm_num)
    (by norm_num [new_size, pyInt, min_def]) (by norm_num [new_size, pyInt, min_def])

/-- C10 counterexample: a 71 × 370 source with the default crop 35 has a positive
cropped size (1 × 300), yet against a 100 × 100 footprint the scale factor is
`min(100/300, 100/1) = 1/3` and the scaled width is `int(1/3) = 0`, so the program
raises in `img.resize` — no scaled image or paste exists there, refuting the claim's
unconditional reading over all cropped images with positive dimensions. -/
theorem normalizer_no_clipping_cex :
    (2 * 35 < (71 : ℤ)) ∧ (2 * 35 < (370 : ℤ)) ∧
    scale_image_to_card 71 370 100 100 35 35 = none ∧
    ¬ ∃ r, scale_image_to_card 71 370 100 100 35 35 = some r := by
  have hnone : scale_image_to_card 71 370 100 100 35 35 = none := by
    norm_num [scale_image_to_card, pyInt, min_def]
  refine ⟨by norm_num, by norm_num, hnone, ?_⟩
  rintro ⟨r, hr⟩
  rw [hnone] at hr
  cases hr

/-- C10 (amended): on a non-degenerate crop whose computed `new_size` is positive in
both axes — i.e. whenever the resize call does not raise — the scaled image never
exceeds the footprint in either axis, both centering offsets are non-negative, and
the paste lies entirely within the target canvas — no clipping occurs, despite the
docstring's mention of overflow clipping. -/
theorem normalizer_no_clipping (img_w img_h card_w card_h x_crop y_crop : ℤ)
    (hw : 2 * x_crop < img_w) (hh : 2 * y_crop < img_h)
    (hnw : 0 < (new_size img_w img_h card_w card_h x_crop y_crop).1)
    (hnh : 0 < (new_size img_w img_h card_w card_h x_crop y_crop).2) :
    ∃ r, scale_image_to_card img_w img_h card_w card_h x_crop y_crop = some r ∧
      0 ≤ r.new_w ∧ 0 ≤ r.new_h ∧ r.new_w ≤ card_w ∧ r.new_h ≤ card_h ∧
      0 ≤ r.x_offset ∧ 0 ≤ r.y_offset ∧
      r.x_offset + r.new_w ≤ r.out_w ∧ r.y_offset + r.new_h ≤ r.out_h := by
  obtain ⟨r, hr, _, _, _, hpw, hph, hnwle, hnhle, _, _, hxo0, hyo0, hxs, hys, hout_w, hout_h⟩ :=
    scale_image_core img_w img_h card_w card_h x_crop y_crop hw hh hnw hnh
  refine ⟨r, hr, hpw.le, hph.le, hnwle, hnhle, hxo0, hyo0, ?_, ?_⟩
  · rw [hout_w]; exact hxs
  · rw [hout_h]; exact hys

/-- Witness for `normalizer_no_clipping`: a 300 × 500 source cropped by 35
(scaled size 555 × 1039), targeted at a 744 × 1039 footprint (an upscale). -/
theorem normalizer_no_clipping_witness :
    ∃ r, scale_image_to_card 300 500 744 1039 35 35 = some r ∧
      0 ≤ r.new_w ∧ 0 ≤ r.new_h ∧ r.new_w ≤ 744 ∧ r.new_h ≤ 1039 ∧
      0 ≤ r.x_offset ∧ 0 ≤ r.y_offset ∧
      r.x_offset + r.new_w ≤ r.out_w ∧ r.y_offset + r.new_h ≤ r.out_h :=
  normalizer_no_clipping 300 500 744 1039 35 35 (by norm_num) (by norm_num)
    (by norm_num [new_size, pyInt, min_def]) (by norm_num [new_size, pyInt, min_def])

/-- The page start offsets iterated by `create_pdf_with_fpdf`:
`for page in range(0, len(images), images_per_page)`. For a positive step,
`range(0, n, per)` is `[0, per, 2*per, ...]` with `ceil(n / per)` entries. -/
def pageStarts (n per : ℕ) : List ℕ :=
  (List.range ((n + per - 1) / per)).map (fun p => p * per)

/-- The cards placed on the page at start offset `page`: the inner loop
`for idx in range(images_per_page)` reads `images[page + idx]` and stops
(`break`) once `page + idx >= len(images)`; since the indices increase, the
cards kept are exactly the in-range reads. -/
def pageCards {α : Type} (images : List α) (per page : ℕ) : List α :=
  (List.range per).filterMap (fun idx => images[page + idx]?)

/-- The pages emitted by `create_pdf_with_fpdf`: one per start offset. -/
def create_pdf_pages {α : Type} (images : List α) (per : ℕ) : List (List α) :=
  (pageStarts images.length per).map (fun page => pageCards images per page)

theorem pageCards_eq_drop_take {α : Type} (images : List α) (per page : ℕ) :
    pageCards images per page = (images.drop page).take per := by
  induction per generalizing page with
  | zero => simp [pageCards]
  | succ p ih =>
    rw [pageCards, List.range_succ_eq_map, List.filterMap_cons, List.filterMap_map]
    have hfun : (fun idx => images[page + idx]?) ∘ Nat.succ =
        fun idx => images[(page + 1) + idx]? := by
      funext idx
      simp only [Function.comp_apply]
      have harg : page + idx.succ = page + 1 + idx := by omega
      rw [harg]
    rw [hfun]
    have htail : List.filterMap (fun idx => images[(page + 1) + idx]?) (List.range p) =
        pageCards images p (page + 1) := rfl
    rw [htail, ih]
    simp only [Nat.add_zero]
    rcases h : images[page]? with _ | a
    · have hlen : images.length ≤ page := List.getElem?_eq_none_iff.mp h
      rw [List.drop_eq_nil_of_le hlen,
        List.drop_eq_nil_of_le (by omega : images.length ≤ page + 1)]
      simp
    · have hlt : page < images.length := by
        by_contra hcon
        rw [List.getElem?_eq_none (by omega)] at h
        cases h
      have hget : images[page] = a := by
        have h2 := List.getElem?_eq_getElem hlt
        rw [h] at h2
        exact (Option.some.injEq _ _).mp h2.symm
      rw [List.drop_eq_getElem_cons hlt, hget, List.take_succ_cons]

theorem pageCards_zero_start {α : Type} (images : List α) (per : ℕ) :
    pageCards images per 0 = images.take per := by
  rw [pageCards_eq_drop_take, List.drop_zero]

/-- Peeling one page off the compositor's output (grid 3 × 3, so 9 per page). -/
theorem create_pdf_pages_nine_cons {α : Type} (l : List α) (h : l ≠ []) :
    create_pdf_pages l 9 = l.take 9 :: create_pdf_pages (l.drop 9) 9 := by
  have hn : 0 < l.length := List.length_pos.mpr h
  have hk : (l.length + 9 - 1) / 9 = (l.length - 1) / 9 + 1 := by omega
  rw [create_pdf_pages, create_pdf_pages, pageStarts, pageStarts, List.length_drop]
  have hk2 : (l.length - 9 + 9 - 1) / 9 = (l.length - 1) / 9 := by omega
  rw [hk, hk2, List.range_succ_eq_map]
  simp only [List.map_cons, List.map_map]
  refine congrArg₂ _ ?_ ?_
  · rw [Nat.zero_mul, pageCards_zero_start]
  · refine List.map_congr_left ?_
    intro i _
    simp only [Function.comp_apply]
    rw [pageCards_eq_drop_take, pageCards_eq_drop_take, List.drop_drop]
    have harg : Nat.succ i * 9 = 9 + i * 9 := by omega
    rw [harg]

theorem create_pdf_pages_nine_nil {α : Type} :
    create_pdf_pages ([] : List α) 9 = [] := by
  simp [create_pdf_pages, pageStarts]

/-- Pages flatten back to the original sequence: the chunks are consecutive and
in order. -/
theorem pages_flatten {α : Type} (l : List α) :
    (create_pdf_pages l 9).flatten = l := by
  by_cases h : l = []
  · subst h
    rw [create_pdf_pages_nine_nil]
    rfl
  · rw [create_pdf_pages_nine_cons l h, List.flatten_cons, pages_flatten (l.drop 9),
      List.take_append_drop]
termination_by l.length
decreasing_by
  have := List.length_pos.mpr h
  rw [List.length_drop]
  omega

theorem pages_length {α : Type} (l : List α) :
    (create_pdf_pages l 9).length = (l.length + 8) / 9 := by
  rw [create_pdf_pages, pageStarts, List.length_map, List.length_map, List.length_range]
  omega

/-- The page count is the ceiling of `N / 9`. -/
theorem pages_length_ceil {α : Type} (l : List α) :
    ((create_pdf_pages l 9).length : ℤ) = ⌈(l.length : ℚ) / 9⌉ := by
  rw [pages_length]
  rw [eq_comm, Int.ceil_eq_iff, Int.cast_natCast]
  constructor
  · rw [lt_div_iff₀ (by norm_num : (0 : ℚ) < 9)]
    have h2 : 9 * (((l.length + 8) / 9 : ℕ) : ℚ) < (l.length : ℚ) + 9 := by
      exact_mod_cast (by omega : 9 * ((l.length + 8) / 9) < l.length + 9)
    linarith [h2]
  · rw [div_le_iff₀ (by norm_num : (0 : ℚ) < 9)]
    have h1 : (l.length : ℚ) ≤ 9 * (((l.length + 8) / 9 : ℕ) : ℚ) := by
      exact_mod_cast (by omega : l.length ≤ 9 * ((l.length + 8) / 9))
    linarith [h1]

theorem pages_chunk_bounds {α : Type} (l : List α) :
    ∀ c ∈ create_pdf_pages l 9, c ≠ [] ∧ c.length ≤ 9 := by
  by_cases h : l = []
  · subst h
    intro c hc
    rw [create_pdf_pages_nine_nil] at hc
    cases hc
  · rw [create_pdf_pages_nine_cons l h]
    intro c hc
    rcases List.mem_cons.mp hc with rfl | hc'
    · constructor
      · rw [Ne, List.take_eq_nil_iff]
        push_neg
        exact ⟨by omega, h⟩
      · rw [List.length_take]
        omega
    · exact pages_chunk_bounds (l.drop 9) c hc'
termination_by l.length
decreasing_by
  have := List.length_pos.mpr h
  rw [List.length_drop]
  omega

theorem pages_ne_nil {α : Type} (l : List α) (h : l ≠ []) :
    create_pdf_pages l 9 ≠ [] := by
  intro hcon
  have := pages_length l
  rw [hcon] at this
  have hn := List.length_pos.mpr h
  simp only [List.length_nil] at this
  omega

/-- Every page except possibly the last is fully populated (9 cards). -/
theorem pages_dropLast_full {α : Type} (l : List α) :
    ∀ c ∈ (create_pdf_pages l 9).dropLast, c.length = 9 := by
  by_cases h : l = []
  · subst h
    intro c hc
    rw [create_pdf_pages_nine_nil] at hc
    cases hc
  · rw [create_pdf_pages_nine_cons l h]
    by_cases h9 : l.drop 9 = []
    · rw [h9, create_pdf_pages_nine_nil]
      intro c hc
      rw [List.dropLast_single] at hc
      cases hc
    · obtain ⟨b, t, hbt⟩ := List.exists_cons_of_ne_nil (pages_ne_nil (l.drop 9) h9)
      rw [hbt, List.dropLast_cons₂]
      intro c hc
      rcases List.mem_cons.mp hc with rfl | hc'
      · have hlen : 9 < l.length := by
          have hp := List.length_pos.mpr h9
          rw [List.length_drop] at hp
          omega
        rw [List.length_take]
        omega
      · rw [← hbt] at hc'
        exact pages_dropLast_full (l.drop 9) c hc'
termination_by l.length
decreasing_by
  have := List.length_pos.mpr h
  rw [List.length_drop]
  omega

/-- The length of the last page: `N mod 9`, or 9 when `N` is a positive multiple
of 9; no page at all when the input is empty. -/
theorem pages_getLast_length {α : Type} (l : List α) :
    (create_pdf_pages l 9).getLast?.map List.length =
      if l.length = 0 then none
      else some (if l.length % 9 = 0 then 9 else l.length % 9) := by
  by_cases h : l = []
  · subst h
    rw [create_pdf_pages_nine_nil]
    rfl
  · have hn : 0 < l.length := List.length_pos.mpr h
    rw [create_pdf_pages_nine_cons l h, if_neg (by omega)]
    by_cases h9 : l.drop 9 = []
    · have hle : l.length ≤ 9 := by
        have := List.drop_eq_nil_iff.mp h9
        omega
      rw [h9, create_pdf_pages_nine_nil, List.getLast?_singleton, Option.map_some',
        List.length_take]
      by_cases hm : l.length % 9 = 0
      · rw [if_pos hm]
        have h99 : l.length = 9 := by omega
        rw [h99]
        norm_num
      · rw [if_neg hm]
        have h1 : min 9 l.length = l.length := by omega
        have h2 : l.length % 9 = l.length := by omega
        rw [h1, h2]
    · obtain ⟨b, t, hbt⟩ := List.exists_cons_of_ne_nil (pages_ne_nil (l.drop 9) h9)
      rw [hbt, List.getLast?_cons_cons, ← hbt]
      have hgt : 9 < l.length := by
        have hp := List.length_pos.mpr h9
        rw [List.length_drop] at hp
        omega
      have ih := pages_getLast_length (l.drop 9)
      rw [List.length_drop] at ih
      rw [ih, if_neg (by omega)]
      have hmod : (l.length - 9) % 9 = l.length % 9 := by omega
      rw [hmod]
termination_by l.length
decreasing_by
  have := List.length_pos.mpr h
  rw [List.length_drop]
  omega

/-- C1: for every list of cards and grid shape 3 × 3, the compositor emits exactly
`ceil(N / 9)` pages; the pages partition the sequence into consecutive in-order
chunks, each non-empty with at most 9 cards and all but the last with exactly 9;
the last page has `N mod 9` cards (or 9 when `N` is a positive multiple of 9),
and no page is emitted for an empty remainder. -/
theorem compositor_pagination {α : Type} (images : List α) :
    ((create_pdf_pages images 9).length : ℤ) = ⌈(images.length : ℚ) / 9⌉ ∧
    (create_pdf_pages images 9).flatten = images ∧
    (∀ c ∈ create_pdf_pages images 9, c ≠ [] ∧ c.length ≤ 9) ∧
    (∀ c ∈ (create_pdf_pages images 9).dropLast, c.length = 9) ∧
    (create_pdf_pages images 9).getLast?.map List.length =
      (if images.length = 0 then none
       else some (if images.length % 9 = 0 then 9 else images.length % 9)) :=
  ⟨pages_length_ceil images, pages_flatten images, pages_chunk_bounds images,
   pages_dropLast_full images, pages_getLast_length images⟩

/-- Witness for `compositor_pagination`: 10 cards on a 3 × 3 grid give 2 pages,
the first full with 9 cards, the last with 1 card. -/
theorem compositor_pagination_witness :
    (create_pdf_pages (List.range 10) 9).length = 2 ∧
    (create_pdf_pages (List.range 10) 9).flatten = List.range 10 ∧
    (List.range 9 ≠ [] ∧ (List.range 9).length ≤ 9) ∧
    (create_pdf_pages (List.range 10) 9).getLast?.map List.length = some 1 := by
  have h := compositor_pagination (List.range 10)
  refine ⟨?_, h.2.1, ?_, ?_⟩
  · have h1 := h.1
    rw [List.length_range] at h1
    have hc : ⌈((10 : ℕ) : ℚ) / 9⌉ = (2 : ℤ) := by
      rw [Int.ceil_eq_iff]
      norm_num
    rw [hc] at h1
    exact_mod_cast h1
  · exact h.2.2.1 (List.range 9) (by decide)
  · have h5 := h.2.2.2.2
    rw [List.length_range] at h5
    rw [if_neg (by norm_num), if_neg (by norm_num)] at h5
    have hmod : (10 : ℕ) % 9 = 1 := by norm_num
    rw [hmod] at h5
    exact h5
/-- Decimal digit characters of a natural number, as Python string interpolation
renders it. -/
def natChars (n : ℕ) : List Char := Nat.toDigits 10 n

/-- `temp_image_path = f"temp_page_{page}_{idx}.png"` (line 149). -/
def temp_image_path (page idx : ℕ) : List Char :=
  ['t','e','m','p','_','p','a','g','e','_'] ++ natChars page ++ ['_'] ++ natChars idx ++
    ['.','p','n','g']

/-- One iteration of the inner card loop of `create_pdf_with_fpdf` (lines 142-153),
tracking which temp files are on disk. The state is (still running, disk contents);
`embed_ok page idx` is an oracle for whether `pdf.image` succeeds on that card.
Once an exception has been raised the remaining iterations do nothing. Otherwise:
past the end of the list the loop has stopped (`break`); else the card is saved to
its temp path (`image.save`), then embedded — on success `os.remove` deletes the
temp file, on failure the exception propagates with the file still on disk. -/
def embedStep (embed_ok : ℕ → ℕ → Bool) (n page : ℕ) (st : Bool × List (List Char))
    (idx : ℕ) : Bool × List (List Char) :=
  if st.1 then
    if n ≤ page + idx then st
    else
      let t := temp_image_path page idx
      let disk1 := st.2 ++ [t]
      if embed_ok page idx then (true, disk1.erase t) else (false, disk1)
  else st

/-- The card loop of one page of `create_pdf_with_fpdf`. -/
def embedPage (embed_ok : ℕ → ℕ → Bool) (n per page : ℕ) (st : Bool × List (List Char)) :
    Bool × List (List Char) :=
  (List.range per).foldl (embedStep embed_ok n page) st

/-- The whole page loop of `create_pdf_with_fpdf` over `n` images, starting from an
empty disk: whether the run completed, and the temp files remaining on disk at the
end (normal or aborted). -/
def create_pdf_disk (embed_ok : ℕ → ℕ → Bool) (n per : ℕ) : Bool × List (List Char) :=
  (pageStarts n per).foldl
    (fun st page => if st.1 then embedPage embed_ok n per page (true, st.2) else st)
    (true, [])

/-- On a run where every embed succeeds, each iteration takes the empty disk back
to the empty disk. -/
theorem embedPage_clean (embed_ok : ℕ → ℕ → Bool) (n per page : ℕ)
    (h : ∀ p i, embed_ok p i = true) :
    embedPage embed_ok n per page (true, []) = (true, []) := by
  rw [embedPage]
  suffices hgen : ∀ l : List ℕ,
      l.foldl (embedStep embed_ok n page) (true, []) = (true, []) from hgen (List.range per)
  intro l
  induction l with
  | nil => rfl
  | cons x xs ih =>
    rw [List.foldl_cons]
    have hx : embedStep embed_ok n page (true, ([] : List (List Char))) x = (true, []) := by
      by_cases hc : n ≤ page + x
      · simp [embedStep, hc]
      · simp [embedStep, hc, h page x]
    rw [hx]
    exact ih

/-- C8 counterexample: with one image whose `pdf.image` call raises, the run aborts
and `temp_page_0_0.png` is left on disk — the temp file is not removed on the failure
path, since `os.remove` is executed only after a successful embed. -/
theorem cleanup_fails_on_embed_error :
    (create_pdf_disk (fun _ _ => false) 1 9).1 = false ∧
    (create_pdf_disk (fun _ _ => false) 1 9).2 = [temp_image_path 0 0] ∧
    (create_pdf_disk (fun _ _ => false) 1 9).2 ≠ [] := by
  refine ⟨?_, ?_, ?_⟩ <;> decide

/-- C8 (amended): after every run in which all embeds succeed, no temporary
per-card raster files remain on disk (each temp file is removed right after its
card is embedded); a run aborted by an embedding failure leaves the failing
card's temp file behind. -/
theorem cleanup_on_success (embed_ok : ℕ → ℕ → Bool) (n per : ℕ)
    (h : ∀ p i, embed_ok p i = true) :
    create_pdf_disk embed_ok n per = (true, []) := by
  rw [create_pdf_disk]
  suffices hgen : ∀ l : List ℕ,
      l.foldl (fun st page => if st.1 then embedPage embed_ok n per page (true, st.2) else st)
        (true, []) = (true, []) from hgen (pageStarts n per)
  intro l
  induction l with
  | nil => rfl
  | cons x xs ih =>
    rw [List.foldl_cons]
    simpa [embedPage_clean embed_ok n per x h] using ih

/-- Witness for `cleanup_on_success`: 10 images, all embeds succeed, disk ends empty. -/
theorem cleanup_on_success_witness :
    create_pdf_disk (fun _ _ => true) 10 9 = (true, []) :=
  cleanup_on_success (fun _ _ => true) 10 9 (fun _ _ => rfl)

/-- `resize_images` (lines 58-69) is a generator: per iteration it opens one source
image inside a `with` block (closed on exit), scales it, and yields the result.
Its elements in order, for an abstract per-file load-and-scale function: -/
def resize_images {α : Type} (image_files : List (List Char)) (scale_one : List Char → α) :
    List α :=
  image_files.map scale_one

/-- A snapshot of the pipeline's memory: how many source images are open and how
many normalized cards exist (and are retained by the consuming `list(...)`). -/
structure MemState where
  sources_open : ℕ
  cards_held : ℕ
deriving DecidableEq

/-- The successive memory snapshots of `list(resize_images(...))` over `n` files:
for file `i`, open the source, yield the scaled card (which the consuming `list`
retains), close the source when the `with` block exits. -/
def resize_loop_states (n : ℕ) : List MemState :=
  (List.range n).flatMap (fun i => [⟨1, i⟩, ⟨1, i + 1⟩, ⟨0, i + 1⟩])

/-- `main` line 176: `resized_images = list(resize_images(...))` forces the whole
generator; this is the list `create_pdf_with_fpdf` receives at line 182. -/
def resized_images_at_compose {α : Type} (image_files : List (List Char))
    (scale_one : List Char → α) : List α :=
  resize_images image_files scale_one

/-- C9 counterexample: for a deck of two files, the list bound to `resized_images`
when composition begins already holds 2 normalized cards — the entire deck, not
fewer, refuting the claim that the whole deck is never in memory at once before
composition begins. -/
theorem deck_held_at_compose_cex :
    ¬ (resized_images_at_compose [['a'], ['b']] (fun f => f)).length <
      ([['a'], ['b']] : List (List Char)).length := by
  decide

/-- C9 (amended): the resize loop is lazy in the source images — at most one source
is open at any snapshot — but `main` forces the generator with `list(...)`, so at
the moment composition begins the entire deck of `N` normalized cards is held in
memory (the materialized list has length `N`). -/
theorem pipeline_memory {α : Type} (image_files : List (List Char))
    (scale_one : List Char → α) :
    (∀ st ∈ resize_loop_states image_files.length, st.sources_open ≤ 1) ∧
    (resized_images_at_compose image_files scale_one).length = image_files.length ∧
    resized_images_at_compose image_files scale_one = image_files.map scale_one := by
  refine ⟨?_, ?_, rfl⟩
  · intro st hst
    rw [resize_loop_states] at hst
    simp only [List.mem_flatMap, List.mem_range, List.mem_cons, List.mem_singleton] at hst
    obtain ⟨i, _, hmem⟩ := hst
    rcases hmem with rfl | rfl | rfl | h' <;> first | simp | cases h'
  · rw [resized_images_at_compose, resize_images, List.length_map]

/-- Witness for `pipeline_memory` on a two-file deck. -/
theorem pipeline_memory_witness :
    (MemState.mk 1 0).sources_open ≤ 1 ∧
    (resized_images_at_compose [['a'], ['b']] (fun f => f)).length = 2 := by
  have h := pipeline_memory [['a'], ['b']] (fun f => f)
  exact ⟨h.1 (MemState.mk 1 0) (by decide), by simpa using h.2.1⟩

end DeckPrinter
